import Mathlib

/-!
Verification of `generate_opcode_table.py`: the cell-text parser, the
addressing-mode resolver and the 16x16 table assembly of `main`.

Strings are modelled as `List Char`; Python's per-character classifiers
`str.isupper`, `str.islower`, `str.isdigit` and one-character `int()` are
modelled over the ASCII ranges (the opcode reference is ASCII).  A Python
exception escaping `main` (`ValueError` from `int()`, `IndexError` from
`rows[rowNum]`) is modelled as `Except.error`; the assembled table is the
list of emitted `I::new(Op::…,cycles,mode)` descriptors, row by row, with
the `mode` field holding the literal text the script writes (after the
`if/elif` chain of lines 47-70, which leaves an unrecognized non-empty
token unchanged).
-/

namespace OpGen

/-- ASCII model of Python's one-character `str.isupper` (codes 65-90). -/
def pyIsUpper (c : Char) : Bool := 65 ≤ c.toNat && c.toNat ≤ 90

/-- ASCII model of Python's one-character `str.islower` (codes 97-122). -/
def pyIsLower (c : Char) : Bool := 97 ≤ c.toNat && c.toNat ≤ 122

/-- ASCII model of Python's one-character `str.isdigit` (codes 48-57). -/
def pyIsDigit (c : Char) : Bool := 48 ≤ c.toNat && c.toNat ≤ 57

/-- Numeric value of a decimal digit character. -/
def pyDigitVal (c : Char) : Nat := c.toNat - 48

/-- The Python exceptions `main` can raise: `ValueError` from `int()` on a
non-digit (lines 37 and 71), `IndexError` from `rows[rowNum]` (line 17). -/
inductive PyError where
  | valueError
  | indexError
deriving Repr, DecidableEq

/-- Python `int()` applied to a one-character string: the digit's value, or
`ValueError`. -/
def pyIntChar (c : Char) : Except PyError Nat :=
  if pyIsDigit c then .ok (pyDigitVal c) else .error .valueError

/-- One emitted instruction descriptor `I::new(Op::mnemonic,cycles,mode)`
(source field order: mnemonic, cycles, addressing mode — line 72). -/
structure Instr where
  mnemonic : List Char
  cycles : Nat
  mode : List Char
deriving Repr, DecidableEq

/-- ASCII model of the whitespace removal `''.join(cell.text.split())`
(lines 21-22): every whitespace character is deleted. -/
def pyIsSpace (c : Char) : Bool :=
  c.toNat = 32 || c.toNat = 9 || c.toNat = 10 || c.toNat = 11 ||
    c.toNat = 12 || c.toNat = 13

/-- Lines 21-22: flatten the cell text to a whitespace-free string. -/
def flattenText (s : List Char) : List Char := s.filter (fun c => !pyIsSpace c)

/-- The `if/elif` chain of lines 47-70: the 11 known abbreviations become
their `AM::…` text, the empty token becomes `AM::IMP`, and any other token
falls through unchanged (there is no `else`). -/
def resolve (t : List Char) : List Char :=
  if t = "abs".data then "AM::ABS".data
  else if t = "abx".data then "AM::ABX".data
  else if t = "aby".data then "AM::ABY".data
  else if t = "imm".data then "AM::IMM".data
  else if t = "ind".data then "AM::IND".data
  else if t = "izx".data then "AM::INX".data
  else if t = "izy".data then "AM::INY".data
  else if t = "zp".data then "AM::ZPG".data
  else if t = "zpx".data then "AM::ZPX".data
  else if t = "zpy".data then "AM::ZPY".data
  else if t = "rel".data then "AM::REL".data
  else if t = [] then "AM::IMP".data
  else t

/-- The 11 abbreviation tokens the chain of lines 47-68 recognizes. -/
def knownTokens : List (List Char) :=
  ["abs".data, "abx".data, "aby".data, "imm".data, "ind".data, "izx".data,
    "izy".data, "zp".data, "zpx".data, "zpy".data, "rel".data]

/-- The spec's closed set of addressing-mode tags (spec section 3). -/
inductive AddressingMode where
  | Implied
  | Absolute
  | AbsoluteX
  | AbsoluteY
  | Immediate
  | Indirect
  | IndexedIndirect
  | IndirectIndexed
  | ZeroPage
  | ZeroPageX
  | ZeroPageY
  | Relative
deriving Repr, DecidableEq

/-- The canonical textual form the script emits for each addressing-mode
tag (the `AM::…` enum paths written on lines 48-70): `IndexedIndirect` is
`(zp,X)` indexing, printed `AM::INX`; `IndirectIndexed` is `(zp),Y`,
printed `AM::INY`. -/
def amCode : AddressingMode → List Char
  | .Implied => "AM::IMP".data
  | .Absolute => "AM::ABS".data
  | .AbsoluteX => "AM::ABX".data
  | .AbsoluteY => "AM::ABY".data
  | .Immediate => "AM::IMM".data
  | .Indirect => "AM::IND".data
  | .IndexedIndirect => "AM::INX".data
  | .IndirectIndexed => "AM::INY".data
  | .ZeroPage => "AM::ZPG".data
  | .ZeroPageX => "AM::ZPX".data
  | .ZeroPageY => "AM::ZPY".data
  | .Relative => "AM::REL".data

/-- Line 71, `cycles = int(data[i]) if i < len(data) else 0`: the cycle
count read from what follows the addressing-mode token — `int` of the ONE
character at position `i` when one exists, 0 otherwise. -/
def pyCycles (rest : List Char) : Except PyError Nat :=
  match rest with
  | [] => .ok 0
  | d :: _ => pyIntChar d

/-- Lines 23-72, one loop body iteration on the flattened cell text `data`:
scan the leading uppercase run (the mnemonic, lines 24-27); if nothing
follows, emit cycles 0 and `AM::IMP` (lines 30-33); if a digit follows,
emit that single digit as cycles and `AM::IMP` (lines 34-39); otherwise
scan the lowercase run (lines 41-44), resolve it (lines 47-70), and read
`int(data[i])` — one character — as cycles if any character remains, else
0 (line 71). -/
def parseCell (data : List Char) : Except PyError Instr :=
  let opcode := data.takeWhile pyIsUpper
  match data.dropWhile pyIsUpper with
  | [] => .ok ⟨opcode, 0, "AM::IMP".data⟩
  | c :: cs =>
    if pyIsDigit c then
      .ok ⟨opcode, pyDigitVal c, "AM::IMP".data⟩
    else
      match pyCycles ((c :: cs).dropWhile pyIsLower) with
      | .ok n => .ok ⟨opcode, n, resolve ((c :: cs).takeWhile pyIsLower)⟩
      | .error e => .error e

instance {ε α : Type} [DecidableEq ε] [DecidableEq α] :
    DecidableEq (Except ε α) := fun a b =>
  match a, b with
  | .ok x, .ok y =>
    if h : x = y then isTrue (by rw [h]) else isFalse (by simp [h])
  | .error x, .error y =>
    if h : x = y then isTrue (by rw [h]) else isFalse (by simp [h])
  | .ok _, .error _ => isFalse (by simp)
  | .error _, .ok _ => isFalse (by simp)

/-- Python list indexing `l[i]` for a non-negative index: `IndexError` when
out of range (line 17, `rows[rowNum]`). -/
def pyGet (l : List α) (i : Nat) : Except PyError α :=
  match l[i]? with
  | some x => .ok x
  | none => .error .indexError

/-- A Python `for` loop whose body may raise, collecting one result per
element: the first raised exception aborts the whole run. -/
def mapE (f : α → Except PyError β) : List α → Except PyError (List β)
  | [] => .ok []
  | x :: xs =>
    match f x with
    | .error e => .error e
    | .ok y =>
      match mapE f xs with
      | .error e => .error e
      | .ok ys => .ok (y :: ys)

/-- Line 20, `for cell in row.find_all('td')[1:]`: every cell of the row
except the 0th is flattened and parsed, in order. -/
def processRow (row : List (List Char)) : Except PyError (List Instr) :=
  mapE (fun cell => parseCell (flattenText cell)) (row.drop 1)

/-- Lines 15-17, `for rowNum in range(1,17): row = rows[rowNum] …`: rows
1 to 16 of the source grid are looked up and processed, in order; the
result is the emitted table, one list of descriptors per output row. -/
def assembleTable (rows : List (List (List Char))) :
    Except PyError (List (List Instr)) :=
  mapE (fun rowNum =>
    match pyGet rows rowNum with
    | .error e => .error e
    | .ok row => processRow row) (List.range' 1 16)

lemma pyIsLower_not_upper {c : Char} (h : pyIsLower c = true) :
    pyIsUpper c = false := by
  simp [pyIsLower] at h
  simp [pyIsUpper]
  omega

lemma pyIsLower_not_digit {c : Char} (h : pyIsLower c = true) :
    pyIsDigit c = false := by
  simp [pyIsLower] at h
  simp [pyIsDigit]
  omega

lemma pyIsDigit_not_lower {c : Char} (h : pyIsDigit c = true) :
    pyIsLower c = false := by
  simp [pyIsDigit] at h
  simp [pyIsLower]
  omega

lemma pyIsDigit_not_upper {c : Char} (h : pyIsDigit c = true) :
    pyIsUpper c = false := by
  simp [pyIsDigit] at h
  simp [pyIsUpper]
  omega

lemma pyDigitVal_le_nine {c : Char} (h : pyIsDigit c = true) :
    pyDigitVal c ≤ 9 := by
  simp [pyIsDigit] at h
  simp [pyDigitVal]
  omega

lemma takeWhile_append_all {α : Type} {p : α → Bool} :
    ∀ (xs ys : List α), (∀ a ∈ xs, p a = true) →
      (xs ++ ys).takeWhile p = xs ++ ys.takeWhile p := by
  intro xs
  induction xs with
  | nil => intro ys _; simp
  | cons x xs ih =>
    intro ys h
    have hx : p x := h x (by simp)
    have hs : ∀ a ∈ xs, p a = true := fun a ha => h a (by simp [ha])
    simp [List.takeWhile_cons_of_pos hx, ih ys hs]

lemma dropWhile_append_all {α : Type} {p : α → Bool} :
    ∀ (xs ys : List α), (∀ a ∈ xs, p a = true) →
      (xs ++ ys).dropWhile p = ys.dropWhile p := by
  intro xs
  induction xs with
  | nil => intro ys _; simp
  | cons x xs ih =>
    intro ys h
    have hx : p x := h x (by simp)
    have hs : ∀ a ∈ xs, p a = true := fun a ha => h a (by simp [ha])
    simp [List.dropWhile_cons_of_pos hx, ih ys hs]

lemma parseCell_digit_after_mnemonic (m : List Char) (d : Char)
    (rest : List Char) (hm : ∀ c ∈ m, pyIsUpper c = true)
    (hd : pyIsDigit d = true) :
    parseCell (m ++ d :: rest) = .ok ⟨m, pyDigitVal d, "AM::IMP".data⟩ := by
  have hdu : pyIsUpper d = false := pyIsDigit_not_upper hd
  unfold parseCell
  rw [takeWhile_append_all m (d :: rest) hm,
    dropWhile_append_all m (d :: rest) hm,
    List.takeWhile_cons_of_neg (by simp [hdu]),
    List.dropWhile_cons_of_neg (by simp [hdu])]
  simp [hd]

lemma parseCell_token_cycle (m tok : List Char) (d : Char) (rest : List Char)
    (hm : ∀ c ∈ m, pyIsUpper c = true) (ht : ∀ c ∈ tok, pyIsLower c = true)
    (htok : tok ≠ []) (hdl : pyIsLower d = false) :
    parseCell (m ++ tok ++ d :: rest) =
      match pyIntChar d with
      | .ok n => .ok ⟨m, n, resolve tok⟩
      | .error e => .error e := by
  obtain ⟨t0, ts, rfl⟩ := List.exists_cons_of_ne_nil htok
  have ht0 : pyIsLower t0 = true := ht t0 (by simp)
  have ht0u : pyIsUpper t0 = false := pyIsLower_not_upper ht0
  have ht0d : pyIsDigit t0 = false := pyIsLower_not_digit ht0
  unfold parseCell
  rw [List.append_assoc, takeWhile_append_all m _ hm,
    dropWhile_append_all m _ hm, List.cons_append,
    List.takeWhile_cons_of_neg (by simp [ht0u]),
    List.dropWhile_cons_of_neg (by simp [ht0u])]
  simp only [List.append_nil, ht0d, Bool.false_eq_true, if_false]
  rw [show t0 :: (ts ++ d :: rest) = (t0 :: ts) ++ d :: rest from rfl,
    takeWhile_append_all (t0 :: ts) (d :: rest) ht,
    dropWhile_append_all (t0 :: ts) (d :: rest) ht,
    List.takeWhile_cons_of_neg (by simp [hdl]),
    List.dropWhile_cons_of_neg (by simp [hdl])]
  simp [pyCycles]

lemma resolve_unknown (tok : List Char) (h1 : tok ∉ knownTokens)
    (h2 : tok ≠ []) : resolve tok = tok := by
  simp [knownTokens, not_or] at h1
  obtain ⟨n1, n2, n3, n4, n5, n6, n7, n8, n9, n10, n11⟩ := h1
  simp [resolve, n1, n2, n3, n4, n5, n6, n7, n8, n9, n10, n11, h2]

lemma knownTokens_lower {tok : List Char} (h : tok ∈ knownTokens) :
    (∀ c ∈ tok, pyIsLower c = true) ∧ tok ≠ [] := by
  fin_cases h <;> exact ⟨by decide, by decide⟩

lemma mapE_ok_length {α β : Type} {f : α → Except PyError β} :
    ∀ {xs : List α} {ys : List β}, mapE f xs = .ok ys →
      ys.length = xs.length := by
  intro xs
  induction xs with
  | nil =>
    intro ys h
    simp [mapE] at h
    simp [← h]
  | cons x xs ih =>
    intro ys h
    unfold mapE at h
    cases hfx : f x with
    | error e => rw [hfx] at h; simp at h
    | ok y =>
      rw [hfx] at h
      cases hm : mapE f xs with
      | error e => rw [hm] at h; simp at h
      | ok ys2 =>
        rw [hm] at h
        simp at h
        simp [← h, ih hm]

lemma mapE_ok_get {α β : Type} {f : α → Except PyError β} :
    ∀ {xs : List α} {ys : List β} {i : Nat} {y : β},
      mapE f xs = .ok ys → ys[i]? = some y →
      ∃ x, xs[i]? = some x ∧ f x = .ok y := by
  intro xs
  induction xs with
  | nil =>
    intro ys i y h hy
    simp [mapE] at h
    subst h
    simp at hy
  | cons x xs ih =>
    intro ys i y h hy
    unfold mapE at h
    cases hfx : f x with
    | error e => rw [hfx] at h; simp at h
    | ok y0 =>
      rw [hfx] at h
      cases hm : mapE f xs with
      | error e => rw [hm] at h; simp at h
      | ok ys2 =>
        rw [hm] at h
        simp at h
        subst h
        cases i with
        | zero =>
          simp at hy
          exact ⟨x, by simp, by rw [hfx, hy]⟩
        | succ n =>
          simp at hy
          obtain ⟨x2, hx2, hfx2⟩ := ih hm hy
          exact ⟨x2, by simpa using hx2, hfx2⟩

lemma mapE_const_ok {α β : Type} {f : α → Except PyError β} {b : β} :
    ∀ (l : List α), (∀ x ∈ l, f x = .ok b) →
      mapE f l = .ok (List.replicate l.length b) := by
  intro l
  induction l with
  | nil => intro _; simp [mapE]
  | cons x xs ih =>
    intro h
    have hx : f x = .ok b := h x (by simp)
    have hs : ∀ a ∈ xs, f a = .ok b := fun a ha => h a (by simp [ha])
    simp [mapE, hx, ih hs, List.replicate_succ]

lemma pyGet_eq_ok {α : Type} {l : List α} {i : Nat} {x : α} :
    pyGet l i = .ok x ↔ l[i]? = some x := by
  unfold pyGet
  cases h : l[i]? <;> simp

lemma pyCycles_ok_le_nine {rest : List Char} {n : Nat}
    (h : pyCycles rest = .ok n) : n ≤ 9 := by
  unfold pyCycles at h
  split at h
  · simp at h
    omega
  · unfold pyIntChar at h
    split_ifs at h with hd
    simp at h
    rw [← h]
    exact pyDigitVal_le_nine hd

lemma parseCell_ok_cycles {data : List Char} {instr : Instr}
    (h : parseCell data = .ok instr) : instr.cycles ≤ 9 := by
  unfold parseCell at h
  split at h
  · simp at h
    rw [← h]
    simp
  · rename_i c cs _
    split_ifs at h with hc
    · simp at h
      rw [← h]
      exact pyDigitVal_le_nine hc
    · split at h
      · rename_i n heq
        simp at h
        rw [← h]
        exact pyCycles_ok_le_nine heq
      · simp at h

lemma parseCell_ok_mnemonic {data : List Char} {instr : Instr}
    (h : parseCell data = .ok instr) :
    instr.mnemonic = data.takeWhile pyIsUpper := by
  unfold parseCell at h
  split at h
  · simp at h
    rw [← h]
  · split_ifs at h with hc
    · simp at h
      rw [← h]
    · split at h
      · simp at h
        rw [← h]
      · simp at h

/-- C1 counterexample: the claim says an unrecognized non-empty lowercase
token makes parsing raise an UnknownAddressingMode failure; on the text
`FOOxyz3` with unknown token `xyz` the code raises nothing and silently
produces a descriptor (whose mode field is the raw token text). -/
theorem unknown_token_cex :
    parseCell "FOOxyz3".data = .ok ⟨"FOO".data, 3, "xyz".data⟩ ∧
      (parseCell "FOOxyz3".data).isOk = true := by
  decide

/-- C1 amended: for every cell text made of an uppercase mnemonic, a
non-empty lowercase token outside the 11-entry table and a digit, parsing
raises no failure at all: it succeeds, and the descriptor carries the raw
unresolved token as its mode text (the `if/elif` chain has no `else`). -/
theorem unknown_token_silent (m tok : List Char) (d : Char)
    (hm : ∀ c ∈ m, pyIsUpper c = true) (ht : ∀ c ∈ tok, pyIsLower c = true)
    (hne : tok ≠ []) (hunk : tok ∉ knownTokens) (hd : pyIsDigit d = true) :
    parseCell (m ++ tok ++ [d]) = .ok ⟨m, pyDigitVal d, tok⟩ := by
  rw [parseCell_token_cycle m tok d [] hm ht hne (pyIsDigit_not_lower hd)]
  simp [pyIntChar, hd, resolve_unknown tok hunk hne]

/-- C1 witness: `unknown_token_silent` applied to the concrete cell text
`QQQfoo5`. -/
theorem unknown_token_silent_witness :
    parseCell ("QQQ".data ++ "foo".data ++ ['5']) =
      .ok ⟨"QQQ".data, pyDigitVal '5', "foo".data⟩ :=
  unknown_token_silent "QQQ".data "foo".data '5' (by decide) (by decide)
    (by decide) (by decide) (by decide)

/-- C2 counterexample: the claim says parsing `ORAizx12` yields cycle
count `int("12") = 12`; the code reads only `data[i]`, one character, so
the descriptor's cycle count is 1 and the final `2` is dropped. -/
theorem token_digits_cex :
    parseCell "ORAizx12".data = .ok ⟨"ORA".data, 1, "AM::INX".data⟩ ∧
      parseCell "ORAizx12".data ≠ .ok ⟨"ORA".data, 12, "AM::INX".data⟩ := by
  decide

/-- C2 amended: for a mnemonic, a recognized abbreviation and a non-empty
digit sequence, parsing succeeds with the resolved mode, but the cycle
count is the value of the FIRST digit only; the remaining digits are
ignored. -/
theorem token_first_digit_cycles (m tok : List Char) (d : Char)
    (ds : List Char) (hm : ∀ c ∈ m, pyIsUpper c = true)
    (ht : tok ∈ knownTokens) (hd : pyIsDigit d = true)
    (_hds : ∀ c ∈ ds, pyIsDigit c = true) :
    parseCell (m ++ tok ++ d :: ds) = .ok ⟨m, pyDigitVal d, resolve tok⟩ := by
  obtain ⟨hl, hne⟩ := knownTokens_lower ht
  rw [parseCell_token_cycle m tok d ds hm hl hne (pyIsDigit_not_lower hd)]
  simp [pyIntChar, hd]

/-- C2 witness: `token_first_digit_cycles` applied to the concrete cell
text `LDAimm23`: cycles 2, not 23. -/
theorem token_first_digit_cycles_witness :
    parseCell ("LDA".data ++ "imm".data ++ '2' :: ['3']) =
      .ok ⟨"LDA".data, pyDigitVal '2', resolve "imm".data⟩ :=
  token_first_digit_cycles "LDA".data "imm".data '2' ['3'] (by decide)
    (by decide) (by decide) (by decide)

/-- C4 counterexample: the claim says a cell with an unrecognized token
produces a descriptor whose mode is Implied; on `LDAqqq2` the code leaves
the token untouched, so the descriptor's mode text is `qqq`, not the
Implied rendering `AM::IMP`. -/
theorem unknown_token_not_implied_cex :
    parseCell "LDAqqq2".data = .ok ⟨"LDA".data, 2, "qqq".data⟩ ∧
      "qqq".data ≠ amCode .Implied := by
  decide

/-- C4 amended: an unrecognized non-empty lowercase token is NOT collapsed
to Implied: the `if/elif` chain of lines 47-70 has no `else`, so the raw
token text itself becomes the descriptor's mode field, and (being
non-empty lowercase) it always differs from the Implied rendering
`AM::IMP`; only the empty token is mapped to Implied. -/
theorem unknown_token_verbatim (m tok : List Char) (d : Char)
    (hm : ∀ c ∈ m, pyIsUpper c = true) (ht : ∀ c ∈ tok, pyIsLower c = true)
    (hne : tok ≠ []) (hunk : tok ∉ knownTokens) (hd : pyIsDigit d = true) :
    parseCell (m ++ tok ++ [d]) = .ok ⟨m, pyDigitVal d, tok⟩ ∧
      tok ≠ amCode .Implied := by
  constructor
  · rw [parseCell_token_cycle m tok d [] hm ht hne (pyIsDigit_not_lower hd)]
    simp [pyIntChar, hd, resolve_unknown tok hunk hne]
  · obtain ⟨t0, ts, rfl⟩ := List.exists_cons_of_ne_nil hne
    intro hcon
    rw [show amCode .Implied = 'A' :: "M::IMP".data from rfl] at hcon
    simp at hcon
    exact absurd (hcon.1 ▸ ht t0 (by simp)) (by decide)

/-- C4 witness: `unknown_token_verbatim` applied to the concrete cell text
`STAwww4`. -/
theorem unknown_token_verbatim_witness :
    parseCell ("STA".data ++ "www".data ++ ['4']) =
      .ok ⟨"STA".data, pyDigitVal '4', "www".data⟩ ∧
      "www".data ≠ amCode .Implied :=
  unknown_token_verbatim "STA".data "www".data '4' (by decide) (by decide)
    (by decide) (by decide) (by decide)

/-- C5 counterexample: the claim says parsing `BRK77` yields cycle count
`int("77") = 77`; the code reads only one character, so the cycle count is
7 and the second `7` is dropped. -/
theorem bare_digits_cex :
    parseCell "BRK77".data = .ok ⟨"BRK".data, 7, "AM::IMP".data⟩ ∧
      parseCell "BRK77".data ≠ .ok ⟨"BRK".data, 77, "AM::IMP".data⟩ := by
  decide

/-- C5 amended: for a mnemonic followed immediately by a non-empty digit
sequence, parsing yields Implied mode and a cycle count equal to the value
of the FIRST digit only; the remaining digits are ignored. -/
theorem bare_first_digit_cycles (m : List Char) (d : Char) (ds : List Char)
    (hm : ∀ c ∈ m, pyIsUpper c = true) (hd : pyIsDigit d = true)
    (_hds : ∀ c ∈ ds, pyIsDigit c = true) :
    parseCell (m ++ d :: ds) = .ok ⟨m, pyDigitVal d, "AM::IMP".data⟩ :=
  parseCell_digit_after_mnemonic m d ds hm hd

/-- C5 witness: `bare_first_digit_cycles` applied to the concrete cell
text `NOP24`: cycles 2, not 24. -/
theorem bare_first_digit_cycles_witness :
    parseCell ("NOP".data ++ '2' :: ['4']) =
      .ok ⟨"NOP".data, pyDigitVal '2', "AM::IMP".data⟩ :=
  bare_first_digit_cycles "NOP".data '2' ['4'] (by decide) (by decide)
    (by decide)

/-- C6 counterexample: the claim says an empty cell text is rejected as
MalformedCellText; the code scans an empty uppercase run, hits the
`i >= len(data)` branch and happily emits a descriptor whose mnemonic is
the empty string. -/
theorem empty_mnemonic_cex :
    parseCell ([] : List Char) = .ok ⟨[], 0, "AM::IMP".data⟩ ∧
      parseCell "abs5".data = .ok ⟨[], 5, "AM::ABS".data⟩ := by
  decide

/-- C6 amended: there is no malformed-cell check: a cell text that is
empty or does not begin with an uppercase letter is not rejected; parsing
proceeds with the empty mnemonic, and every descriptor it produces for
such a cell has an empty mnemonic. -/
theorem no_malformed_check (data : List Char) (instr : Instr)
    (hhead : Option.all (fun c => !pyIsUpper c) data.head? = true)
    (h : parseCell data = .ok instr) : instr.mnemonic = [] := by
  rw [parseCell_ok_mnemonic h]
  cases data with
  | nil => rfl
  | cons c cs =>
    simp [Option.all] at hhead
    exact List.takeWhile_cons_of_neg (by simp [hhead])

/-- C6 witness: `no_malformed_check` applied to the cell text `abs5`,
which begins with a lowercase letter and still parses, to a descriptor
with empty mnemonic. -/
theorem no_malformed_check_witness :
    parseCell "abs5".data = .ok ⟨[], 5, "AM::ABS".data⟩ ∧
      (Instr.mk [] 5 "AM::ABS".data).mnemonic = [] :=
  ⟨by decide, no_malformed_check "abs5".data ⟨[], 5, "AM::ABS".data⟩
    (by decide) (by decide)⟩

/-- C7 counterexample: the claim says trailing characters that are not all
decimal digits are rejected; on `ORAizx6X` the trailing text `6X` is not
all digits, yet the code reads only the `6`, silently drops the `X`, and
produces a descriptor. -/
theorem trailing_garbage_cex :
    parseCell "ORAizx6X".data = .ok ⟨"ORA".data, 6, "AM::INX".data⟩ ∧
      (parseCell "ORAizx6X".data).isOk = true := by
  decide

/-- C7 amended: a failure (Python `ValueError` from `int()`) occurs
exactly when the single character at the cycle position — the first
character after the addressing-mode token — is not a decimal digit; any
characters after that first one are never examined. -/
theorem nondigit_cycle_position_fails (m tok : List Char) (d : Char)
    (rest : List Char) (hm : ∀ c ∈ m, pyIsUpper c = true)
    (ht : ∀ c ∈ tok, pyIsLower c = true) (hne : tok ≠ [])
    (hdl : pyIsLower d = false) (hdd : pyIsDigit d = false) :
    parseCell (m ++ tok ++ d :: rest) = .error .valueError := by
  rw [parseCell_token_cycle m tok d rest hm ht hne hdl]
  simp [pyIntChar, hdd]

/-- C7 witness: `nondigit_cycle_position_fails` applied to the concrete
cell text `JMPindX`. -/
theorem nondigit_cycle_position_fails_witness :
    parseCell ("JMP".data ++ "ind".data ++ ['X']) = .error .valueError :=
  nondigit_cycle_position_fails "JMP".data "ind".data 'X' [] (by decide)
    (by decide) (by decide) (by decide) (by decide)

/-- C8: the `if/elif` chain maps each of the 11 recognized abbreviations
to the canonical rendering of its tabulated mode tag, and the empty token
to the rendering of Implied. -/
theorem resolver_table_correct :
    resolve "abs".data = amCode .Absolute ∧
    resolve "abx".data = amCode .AbsoluteX ∧
    resolve "aby".data = amCode .AbsoluteY ∧
    resolve "imm".data = amCode .Immediate ∧
    resolve "ind".data = amCode .Indirect ∧
    resolve "izx".data = amCode .IndexedIndirect ∧
    resolve "izy".data = amCode .IndirectIndexed ∧
    resolve "zp".data = amCode .ZeroPage ∧
    resolve "zpx".data = amCode .ZeroPageX ∧
    resolve "zpy".data = amCode .ZeroPageY ∧
    resolve "rel".data = amCode .Relative ∧
    resolve [] = amCode .Implied := by
  decide

/-- C10: every cycle count the parser can emit comes from `int(data[i])`
on a single character (or the default 0), so every successfully parsed
descriptor has a cycle count between 0 and 9. -/
theorem cycles_single_digit (data : List Char) (instr : Instr)
    (h : parseCell data = .ok instr) : instr.cycles ≤ 9 :=
  parseCell_ok_cycles h

/-- C10 witness: `cycles_single_digit` applied to the cell text `BRK7`. -/
theorem cycles_single_digit_witness :
    parseCell "BRK7".data = .ok ⟨"BRK".data, 7, "AM::IMP".data⟩ ∧
      (Instr.mk "BRK".data 7 "AM::IMP".data).cycles ≤ 9 :=
  ⟨by decide, cycles_single_digit "BRK7".data ⟨"BRK".data, 7, "AM::IMP".data⟩
    (by decide)⟩

/-- C3 counterexample: the claim says a row with other than 16 consumed
cells must raise StructuralShapeViolation and withhold the output; here
every data row has a single cell after its index cell, yet assembly
succeeds and the full ill-shaped table (16 rows of 1 descriptor) is
produced. -/
theorem shape_unchecked_cex :
    assembleTable (List.replicate 17 ["x0".data, "BRK7".data]) =
      .ok (List.replicate 16 [⟨"BRK".data, 7, "AM::IMP".data⟩]) := by
  decide

/-- C3 amended: `main` has no shape validation: a 17-row grid (header plus
16 data rows) assembles successfully for EVERY per-row cell count, the
output simply having one descriptor per cell after the index cell; no
StructuralShapeViolation failure exists anywhere in the code. -/
theorem shape_unchecked (n : Nat) (cell : List Char) (instr : Instr)
    (h : parseCell (flattenText cell) = .ok instr) :
    assembleTable (List.replicate 17 (List.replicate (n + 1) cell)) =
      .ok (List.replicate 16 (List.replicate n instr)) := by
  have hrow : processRow (List.replicate (n + 1) cell) =
      .ok (List.replicate n instr) := by
    unfold processRow
    rw [show (List.replicate (n + 1) cell).drop 1 = List.replicate n cell by
      simp [List.replicate_succ]]
    have hmem : ∀ x ∈ List.replicate n cell,
        parseCell (flattenText x) = .ok instr := by
      intro x hx
      rw [List.eq_of_mem_replicate hx]
      exact h
    simpa using mapE_const_ok (List.replicate n cell) hmem
  unfold assembleTable
  have hall : ∀ k ∈ List.range' 1 16, (fun rowNum =>
      match pyGet (List.replicate 17 (List.replicate (n + 1) cell)) rowNum with
      | .error e => (.error e : Except PyError (List Instr))
      | .ok row => processRow row) k = .ok (List.replicate n instr) := by
    intro k hk
    rw [List.mem_range'] at hk
    have hk17 : k < 17 := by omega
    have hget : pyGet (List.replicate 17 (List.replicate (n + 1) cell)) k =
        .ok (List.replicate (n + 1) cell) := by
      rw [pyGet_eq_ok, List.getElem?_replicate]
      simp [hk17]
    simp only [hget, hrow]
  simpa using mapE_const_ok (List.range' 1 16) hall

/-- C3 witness: `shape_unchecked` applied to a grid of 17 rows of 16 cells
each (15 data cells per row, not 16): assembly succeeds anyway. -/
theorem shape_unchecked_witness :
    parseCell (flattenText "BRK7".data) =
      .ok ⟨"BRK".data, 7, "AM::IMP".data⟩ ∧
    assembleTable (List.replicate 17 (List.replicate 16 "BRK7".data)) =
      .ok (List.replicate 16
        (List.replicate 15 ⟨"BRK".data, 7, "AM::IMP".data⟩)) :=
  ⟨by decide, shape_unchecked 15 "BRK7".data ⟨"BRK".data, 7, "AM::IMP".data⟩
    (by decide)⟩

/-- C9 counterexample: the claim says exactly cells 1-16 of each consumed
row are consumed; with 18 cells per source row, `[1:]` consumes cells 1
through 17 and each output row carries 17 descriptors — the 17th derived
from source cell 17. -/
theorem consumed_beyond_cell16_cex :
    assembleTable (List.replicate 17 (List.replicate 18 "BRK7".data)) =
      .ok (List.replicate 16
        (List.replicate 17 ⟨"BRK".data, 7, "AM::IMP".data⟩)) := by
  decide

/-- C9 amended: whenever assembly succeeds the output has exactly 16 rows
and the descriptor at output position (row r, column c) is parsed from
source grid row r+1, cell c+1, in source order — but the cells consumed
per row are cell 1 through the END of the row (`[1:]`), not exactly cells
1-16. -/
theorem table_position_correspondence (rows : List (List (List Char)))
    (table : List (List Instr)) (r c : Nat) (trow : List Instr)
    (instr : Instr) (h : assembleTable rows = .ok table)
    (hr : table[r]? = some trow) (hc : trow[c]? = some instr) :
    table.length = 16 ∧
      ∃ row cell, rows[r + 1]? = some row ∧ row[c + 1]? = some cell ∧
        parseCell (flattenText cell) = .ok instr := by
  unfold assembleTable at h
  have hlen : table.length = 16 := by
    rw [mapE_ok_length h, List.length_range']
  refine ⟨hlen, ?_⟩
  have hrlt : r < 16 := by
    have h1 := (List.getElem?_eq_some.mp hr).1
    omega
  obtain ⟨k, hk, hstep⟩ := mapE_ok_get h hr
  rw [List.getElem?_range' 1 1 hrlt] at hk
  simp at hk
  subst hk
  cases hget : pyGet rows (1 + r) with
  | error e =>
    simp only [hget] at hstep
    exact Except.noConfusion hstep
  | ok row =>
    simp only [hget] at hstep
    unfold processRow at hstep
    obtain ⟨cell, hcell, hparse⟩ := mapE_ok_get hstep hc
    rw [List.getElem?_drop] at hcell
    refine ⟨row, cell, ?_, ?_, hparse⟩
    · rw [Nat.add_comm]
      exact pyGet_eq_ok.mp hget
    · rw [Nat.add_comm]
      exact hcell

/-- C9 witness: `table_position_correspondence` applied to a well-shaped
17x17 grid, at output position (0, 0). -/
theorem table_position_correspondence_witness :
    assembleTable (List.replicate 17 (List.replicate 17 "BRK7".data)) =
      .ok (List.replicate 16
        (List.replicate 16 ⟨"BRK".data, 7, "AM::IMP".data⟩)) ∧
    ((List.replicate 16
        (List.replicate 16 (⟨"BRK".data, 7, "AM::IMP".data⟩ : Instr))).length
          = 16 ∧
      ∃ row cell,
        (List.replicate 17 (List.replicate 17 "BRK7".data))[0 + 1]? =
          some row ∧
        row[0 + 1]? = some cell ∧
        parseCell (flattenText cell) =
          .ok ⟨"BRK".data, 7, "AM::IMP".data⟩) :=
  ⟨by decide,
    table_position_correspondence
      (List.replicate 17 (List.replicate 17 "BRK7".data))
      (List.replicate 16
        (List.replicate 16 ⟨"BRK".data, 7, "AM::IMP".data⟩))
      0 0 (List.replicate 16 ⟨"BRK".data, 7, "AM::IMP".data⟩)
      ⟨"BRK".data, 7, "AM::IMP".data⟩ (by decide) (by decide) (by decide)⟩

end OpGen
